import Mathlib

/-!
# Verification of the hflow task-progress reporter (src/src/lib.rs)

Shallow embedding of the concurrency and status-reporting engine:
`ExecutionStatus`, `ExecutionUnit` with its builder methods and `execute`
protocol, the display loop (`display_progress`), `TaskGroup` and
`ProgressManager`.

Caller-supplied closures (`execute`, `on_failure`, `on_sucess` — the last
spelled as in the source) receive the shared status handle and may mutate
the status cell; we model each closure as a status transformer
`ExecutionStatus → ExecutionStatus`.  The interleaving of the spawned
worker thread with the foreground display loop is modelled as a small-step
system driven by an explicit schedule (`List Bool`: `true` = one atomic
worker step, `false` = one display-loop iteration).  The worker has two
atomic steps, matching the code: run the work closure, then read the final
status once and dispatch at most one hook on that snapshot
(lib.rs lines 159-182).
-/

namespace HFlow

/-- lib.rs line 10-15: the tri-state status tag. -/
inductive ExecutionStatus
  | InProgress
  | Completed
  | Failed
deriving DecidableEq, Repr

/-- lib.rs line 7: `const SPINNER_FRAMES: [&str; 4] = ["—", "\\", "|", "/"];` -/
def SPINNER_FRAMES : List String := ["—", "\\", "|", "/"]

/-- The 4-frame cycle produced by `SPINNER_FRAMES.iter().cycle()`:
the k-th call to `next()` yields frame `k mod 4`. -/
def spinnerFrame (k : Nat) : String := SPINNER_FRAMES.getD (k % 4) ""

/-- A caller-supplied closure receiving the shared status handle;
modelled as a transformer of the status cell's value. -/
abbrev Hook := ExecutionStatus → ExecutionStatus

/-- lib.rs lines 18-26: the `ExecutionUnit` struct.  The three closure
slots are `Option`s, consumed by `execute` via `take()`. -/
structure ExecutionUnit where
  status : ExecutionStatus
  description : String
  total_groups : Int
  current_group_idx : Int
  execute : Option Hook
  on_failure : Option Hook
  on_sucess : Option Hook

/-- lib.rs lines 30-41: `ExecutionUnit::new` — status starts `InProgress`,
indices 0, no closures attached. -/
def ExecutionUnit.new (description : String) : ExecutionUnit :=
  { status := ExecutionStatus.InProgress
    description := description
    total_groups := 0
    current_group_idx := 0
    execute := none
    on_failure := none
    on_sucess := none }

/-- lib.rs lines 44-46: `set_total_groups`. -/
def ExecutionUnit.set_total_groups (u : ExecutionUnit) (total : Int) : ExecutionUnit :=
  { u with total_groups := total }

/-- lib.rs lines 48-50: `set_group_index`. -/
def ExecutionUnit.set_group_index (u : ExecutionUnit) (index : Int) : ExecutionUnit :=
  { u with current_group_idx := index }

/-- lib.rs lines 53-59: builder method `on_execute` — stores the work
closure in the `execute` slot. -/
def ExecutionUnit.on_execute (u : ExecutionUnit) (callback : Hook) : ExecutionUnit :=
  { u with execute := some callback }

/-- lib.rs lines 62-68: builder method `on_failure` — stores the failure
hook.  (Named `on_failure_set` here because the Lean structure projection
already uses the field name `on_failure`.) -/
def ExecutionUnit.on_failure_set (u : ExecutionUnit) (action : Hook) : ExecutionUnit :=
  { u with on_failure := some action }

/-- lib.rs lines 71-77: builder method `on_success` — stores the success
hook in the (source-spelled) `on_sucess` slot. -/
def ExecutionUnit.on_success (u : ExecutionUnit) (action : Hook) : ExecutionUnit :=
  { u with on_sucess := some action }

/-! ## The worker thread (lib.rs lines 159-182) -/

/-- Which hook the worker invoked. -/
inductive HookKind
  | success
  | failure
deriving DecidableEq, Repr

/-- lib.rs lines 163-181: after `work` returns, the worker reads the final
status once (`final_status`), then runs the success hook if the snapshot is
`Completed` and one is attached, and the failure hook if the snapshot is
`Failed` and one is attached.  Both `if`s test the same snapshot.  Returns
the resulting status-cell value and the list of hook invocations in order. -/
def workerDispatch (on_fail on_suc : Option Hook) (st : ExecutionStatus) :
    ExecutionStatus × List HookKind :=
  let final_status := st
  let p1 : ExecutionStatus × List HookKind :=
    if final_status = ExecutionStatus.Completed then
      match on_suc with
      | some callback => (callback st, [HookKind.success])
      | none => (st, [])
    else (st, [])
  let p2 : ExecutionStatus × List HookKind :=
    if final_status = ExecutionStatus.Failed then
      match on_fail with
      | some callback => (callback p1.1, [HookKind.failure])
      | none => (p1.1, [])
    else (p1.1, [])
  (p2.1, p1.2 ++ p2.2)

/-- The whole worker closure (lib.rs lines 159-182): run `action` on the
status cell, then dispatch hooks on a single snapshot of the result. -/
def workerRun (action : Hook) (on_fail on_suc : Option Hook) (st0 : ExecutionStatus) :
    ExecutionStatus × List HookKind :=
  workerDispatch on_fail on_suc (action st0)

/-! ## The display loop (lib.rs lines 80-111) -/

/-- One terminal line written by the display loop: an in-progress spinner
line (with its spinner character), the success line `[i/n] desc ✔`, or the
failure line `[i/n] desc ✘`. -/
inductive Render
  | spinnerLine (frame : String)
  | successLine
  | failLine
deriving DecidableEq, Repr

/-- The interleaved state of one `execute` call: the shared status cell,
the worker's program counter (0 = before `work`, 1 = `work` returned,
2 = hook dispatch done), the spinner-iterator position, whether the
display loop has hit `break`, the terminal output so far, and the hook
invocations so far. -/
structure Config where
  status : ExecutionStatus
  workerPC : Nat
  spin : Nat
  displayDone : Bool
  output : List Render
  hookEvents : List HookKind
deriving DecidableEq, Repr

/-- One iteration of the `loop` in `display_progress` (lib.rs lines
82-110): read the status under the lock, then render.  `InProgress`
prints a spinner line and advances the spinner iterator; `Completed`
prints the success line and `break`s; `Failed` prints the failure line
and does NOT `break` (there is no `break` in that arm), so the loop
continues.  After the display loop has broken, the foreground thread
performs no further display iterations. -/
def displayStep (c : Config) : Config :=
  if c.displayDone then c
  else
    match c.status with
    | ExecutionStatus.InProgress =>
        { c with
          output := c.output ++ [Render.spinnerLine (spinnerFrame c.spin)]
          spin := c.spin + 1 }
    | ExecutionStatus.Completed =>
        { c with output := c.output ++ [Render.successLine], displayDone := true }
    | ExecutionStatus.Failed =>
        { c with output := c.output ++ [Render.failLine] }

/-- One atomic step of the spawned worker: at pc 0 run the work closure on
the status cell; at pc 1 take the single snapshot and dispatch hooks
(lib.rs lines 160-181); at pc 2 the worker has finished. -/
def workerStep (action : Hook) (on_fail on_suc : Option Hook) (c : Config) : Config :=
  match c.workerPC with
  | 0 => { c with status := action c.status, workerPC := 1 }
  | 1 =>
      let r := workerDispatch on_fail on_suc c.status
      { c with status := r.1, workerPC := 2, hookEvents := c.hookEvents ++ r.2 }
  | _ => c

/-- One step of the interleaved system: `true` schedules the worker,
`false` schedules a display-loop iteration. -/
def sysStep (action : Hook) (on_fail on_suc : Option Hook) (c : Config) (who : Bool) : Config :=
  if who then workerStep action on_fail on_suc c else displayStep c

/-- The state at the start of `execute`: status `InProgress`, worker not
yet run, spinner at frame 0, nothing printed. -/
def initConfig : Config :=
  { status := ExecutionStatus.InProgress
    workerPC := 0
    spin := 0
    displayDone := false
    output := []
    hookEvents := [] }

/-- Run the worker/display interleaving under an explicit schedule. -/
def runSched (action : Hook) (on_fail on_suc : Option Hook) (sched : List Bool) : Config :=
  sched.foldl (sysStep action on_fail on_suc) initConfig

/-! ## `execute` itself (lib.rs lines 148-199) -/

/-- The take phase of `execute` (lib.rs lines 150-153): `on_failure.take()`,
`execute.take().unwrap()` — a panic when no work closure is attached —
then `on_sucess.take()`.  Returns the unit with all three slots cleared
together with the taken closures, or `none` for the panic. -/
def ExecutionUnit.executeTake (u : ExecutionUnit) :
    Option (ExecutionUnit × Hook × Option Hook × Option Hook) :=
  match u.execute with
  | none => none
  | some action =>
      some ({ u with execute := none, on_failure := none, on_sucess := none },
            action, u.on_failure, u.on_sucess)

/-- The observable outcome of one `execute` call. -/
inductive Outcome
  | panicked
  | running
  | exited (code : Nat)
  | returned
deriving DecidableEq, Repr

/-- `execute` (lib.rs lines 148-199) under a schedule: panic if no work is
attached; otherwise run the interleaving; the call completes only once the
display loop has broken AND the worker has been joined (pc 2), after which
the final status is re-read: `Failed` means `std::process::exit(1)`, else
`execute` returns normally.  A schedule too short to reach that point
leaves the call still `running` (in the real program: the foreground
thread still looping or blocked in `join`). -/
def ExecutionUnit.executeRun (u : ExecutionUnit) (sched : List Bool) : Outcome × Config :=
  match u.execute with
  | none => (Outcome.panicked, initConfig)
  | some action =>
      if (runSched action u.on_failure u.on_sucess sched).displayDone
          ∧ (runSched action u.on_failure u.on_sucess sched).workerPC = 2 then
        if (runSched action u.on_failure u.on_sucess sched).status = ExecutionStatus.Failed then
          (Outcome.exited 1, runSched action u.on_failure u.on_sucess sched)
        else (Outcome.returned, runSched action u.on_failure u.on_sucess sched)
      else (Outcome.running, runSched action u.on_failure u.on_sucess sched)

/-! ## `TaskGroup` (lib.rs lines 203-224) and `ProgressManager` (lines 227-247) -/

/-- lib.rs lines 203-205. -/
structure TaskGroup where
  units : List ExecutionUnit

/-- lib.rs lines 208-210. -/
def TaskGroup.new : TaskGroup := { units := [] }

/-- lib.rs lines 212-214: append in insertion order. -/
def TaskGroup.add_unit (g : TaskGroup) (unit : ExecutionUnit) : TaskGroup :=
  { units := g.units ++ [unit] }

/-- lib.rs lines 217-223: `run` iterates the units in insertion order; for
each, sets the group index then the total-groups label, then calls
`execute()`.  Returns the units in execution order, each in the configured
state it has at the moment its `execute()` is called. -/
def TaskGroup.run (g : TaskGroup) (total_groups current_idx : Int) : List ExecutionUnit :=
  g.units.map (fun unit => (unit.set_group_index current_idx).set_total_groups total_groups)

/-- lib.rs lines 227-229. -/
structure ProgressManager where
  groups : List TaskGroup

/-- lib.rs lines 232-234. -/
def ProgressManager.new : ProgressManager := { groups := [] }

/-- lib.rs lines 236-238: append in insertion order. -/
def ProgressManager.add_group (m : ProgressManager) (group : TaskGroup) : ProgressManager :=
  { groups := m.groups ++ [group] }

/-- lib.rs lines 241-246: `start` computes `total` = group count once,
then calls `run(total, idx + 1)` on each group in insertion order.
Returns, per group in execution order, the units as configured when
executed. -/
def ProgressManager.start (m : ProgressManager) : List (List ExecutionUnit) :=
  let total : Int := (m.groups.length : Int)
  m.groups.enum.map (fun p => p.2.run total ((p.1 : Int) + 1))

end HFlow

namespace HFlow

/-! ## Invariants of the interleaved system -/

/-- A display-loop iteration never touches the status cell, the worker's
program counter, or the hook log: it only reads the status and writes to
the terminal. -/
theorem displayStep_frame (c : Config) :
    (displayStep c).status = c.status ∧ (displayStep c).workerPC = c.workerPC
      ∧ (displayStep c).hookEvents = c.hookEvents := by
  unfold displayStep
  by_cases h : c.displayDone = true
  · simp [h]
  · simp only [h, if_false]
    cases c.status <;> simp

/-- A worker step never touches the display-loop state (break flag,
terminal output, spinner position). -/
theorem workerStep_frame (a : Hook) (f s : Option Hook) (c : Config) :
    (workerStep a f s c).displayDone = c.displayDone
      ∧ (workerStep a f s c).output = c.output
      ∧ (workerStep a f s c).spin = c.spin := by
  unfold workerStep
  split <;> simp

/-- The worker-side invariant: the program counter determines the status
cell's value and the hook log, because the display loop never writes the
status and the unit starts in `InProgress`. -/
def WInv (a : Hook) (f s : Option Hook) (c : Config) : Prop :=
  (c.workerPC = 0 → c.status = ExecutionStatus.InProgress ∧ c.hookEvents = [])
  ∧ (c.workerPC = 1 → c.status = a ExecutionStatus.InProgress ∧ c.hookEvents = [])
  ∧ (c.workerPC = 2 →
      c.status = (workerRun a f s ExecutionStatus.InProgress).1
        ∧ c.hookEvents = (workerRun a f s ExecutionStatus.InProgress).2)
  ∧ c.workerPC ≤ 2

theorem wInv_init (a : Hook) (f s : Option Hook) : WInv a f s initConfig := by
  refine ⟨fun _ => ⟨rfl, rfl⟩, fun h => ?_, fun h => ?_, by simp [initConfig]⟩ <;>
    simp [initConfig] at h

theorem wInv_displayStep (a : Hook) (f s : Option Hook) (c : Config)
    (h : WInv a f s c) : WInv a f s (displayStep c) := by
  obtain ⟨hst, hpc, hev⟩ := displayStep_frame c
  unfold WInv at h ⊢
  rw [hst, hpc, hev]
  exact h

theorem wInv_workerStep (a : Hook) (f s : Option Hook) (c : Config)
    (h : WInv a f s c) : WInv a f s (workerStep a f s c) := by
  obtain ⟨h0, h1, h2, hle⟩ := h
  unfold workerStep
  rcases hpc : c.workerPC with _ | _ | n
  · obtain ⟨hs, he⟩ := h0 hpc
    exact ⟨by simp, fun _ => by simp [hs, he], by simp, by simp⟩
  · obtain ⟨hs, he⟩ := h1 hpc
    refine ⟨by simp, by simp, fun _ => ?_, by simp⟩
    simp only [hs, he]
    exact ⟨rfl, by simp [workerRun]⟩
  · exact ⟨h0, h1, h2, hle⟩

/-- Any predicate preserved by every step is preserved by a whole run. -/
theorem foldl_step_inv {σ α : Type} {step : σ → α → σ} {P : σ → Prop}
    (hstep : ∀ c x, P c → P (step c x)) :
    ∀ (l : List α) (c : σ), P c → P (l.foldl step c) := by
  intro l
  induction l with
  | nil => exact fun c hc => hc
  | cons x t ih => exact fun c hc => ih _ (hstep c x hc)

theorem wInv_sysStep (a : Hook) (f s : Option Hook) (c : Config) (who : Bool)
    (h : WInv a f s c) : WInv a f s (sysStep a f s c who) := by
  unfold sysStep
  cases who
  · simpa using wInv_displayStep a f s c h
  · simpa using wInv_workerStep a f s c h

theorem wInv_runSched (a : Hook) (f s : Option Hook) (sched : List Bool) :
    WInv a f s (runSched a f s sched) :=
  foldl_step_inv (fun c who h => wInv_sysStep a f s c who h) sched initConfig
    (wInv_init a f s)

end HFlow

namespace HFlow

/-- C9: each builder setter (`on_execute`, `on_failure`, `on_success`)
overwrites any previously stored closure in its slot — after calling the
same setter twice only the second closure is stored — and the take phase
of `execute` hands exactly the stored (second) closure to the worker. -/
theorem C9_setters_overwrite (u : ExecutionUnit) (f g : Hook) :
    ((u.on_execute f).on_execute g).execute = some g
    ∧ ((u.on_failure_set f).on_failure_set g).on_failure = some g
    ∧ ((u.on_success f).on_success g).on_sucess = some g
    ∧ ((u.on_execute f).on_execute g).executeTake
        = some ({ u with execute := none, on_failure := none, on_sucess := none },
                g, u.on_failure, u.on_sucess) :=
  ⟨rfl, rfl, rfl, rfl⟩

/-- C10: `set_group_index` modifies only the group-index field and
`set_total_groups` modifies only the total-groups field; each leaves the
status cell, the description, and the three closure slots unchanged. -/
theorem C10_group_setters_frame (u : ExecutionUnit) (i n : Int) :
    (u.set_group_index i).current_group_idx = i
    ∧ (u.set_group_index i).status = u.status
    ∧ (u.set_group_index i).description = u.description
    ∧ (u.set_group_index i).total_groups = u.total_groups
    ∧ (u.set_group_index i).execute = u.execute
    ∧ (u.set_group_index i).on_failure = u.on_failure
    ∧ (u.set_group_index i).on_sucess = u.on_sucess
    ∧ (u.set_total_groups n).total_groups = n
    ∧ (u.set_total_groups n).status = u.status
    ∧ (u.set_total_groups n).description = u.description
    ∧ (u.set_total_groups n).current_group_idx = u.current_group_idx
    ∧ (u.set_total_groups n).execute = u.execute
    ∧ (u.set_total_groups n).on_failure = u.on_failure
    ∧ (u.set_total_groups n).on_sucess = u.on_sucess :=
  ⟨rfl, rfl, rfl, rfl, rfl, rfl, rfl, rfl, rfl, rfl, rfl, rfl, rfl, rfl⟩

/-- C4: the worker runs the work closure, then reads the status exactly
once; on that single snapshot it runs the success hook iff the snapshot is
`Completed` and one is attached, the failure hook iff the snapshot is
`Failed` and one is attached, no hook on `InProgress`; at most one hook
runs per execution. -/
theorem C4_worker_snapshot_dispatch (action : Hook) (on_fail on_suc : Option Hook)
    (st0 : ExecutionStatus) :
    (workerRun action on_fail on_suc st0
      = match action st0, on_suc, on_fail with
        | ExecutionStatus.InProgress, _, _ => (action st0, [])
        | ExecutionStatus.Completed, some h, _ => (h (action st0), [HookKind.success])
        | ExecutionStatus.Completed, none, _ => (action st0, [])
        | ExecutionStatus.Failed, _, some h => (h (action st0), [HookKind.failure])
        | ExecutionStatus.Failed, _, none => (action st0, []))
    ∧ (workerRun action on_fail on_suc st0).2.length ≤ 1 := by
  rcases hsnap : action st0 with _ | _ | _ <;>
    rcases on_suc with _ | hs <;>
    rcases on_fail with _ | hf <;>
    simp [workerRun, workerDispatch, hsnap]

/-- C5: `execute` panics (precondition violation) when no work closure is
attached, and a second call on an already-executed unit — whose slots were
all consumed by the first call — fails deterministically and runs no
stale or duplicate logic (no output, no hook events). -/
theorem C5_execute_requires_work (u : ExecutionUnit) :
    (u.execute = none →
      u.executeTake = none
        ∧ ∀ sched : List Bool, u.executeRun sched = (Outcome.panicked, initConfig))
    ∧ (∀ r, u.executeTake = some r →
        r.1.executeTake = none
          ∧ ∀ sched : List Bool, r.1.executeRun sched = (Outcome.panicked, initConfig)) := by
  rcases hu : u.execute with _ | a
  · refine ⟨fun _ => ⟨?_, fun sched => ?_⟩, fun r hr => ?_⟩
    · simp [ExecutionUnit.executeTake, hu]
    · simp [ExecutionUnit.executeRun, hu]
    · simp [ExecutionUnit.executeTake, hu] at hr
  · refine ⟨fun h => absurd h (by simp [hu]), fun r hr => ?_⟩
    simp only [ExecutionUnit.executeTake, hu] at hr
    obtain rfl : ({ u with execute := none, on_failure := none, on_sucess := none },
        a, u.on_failure, u.on_sucess) = r := Option.some.inj hr
    exact ⟨rfl, fun sched => rfl⟩

/-- Witness for C5: a fresh unit with no work attached panics, and the
cleared unit left behind by a successful take panics on re-take. -/
theorem C5_execute_requires_work_witness :
    (ExecutionUnit.new "w").executeTake = none
    ∧ (ExecutionUnit.new "w").executeRun [] = (Outcome.panicked, initConfig) := by
  constructor
  · exact ((C5_execute_requires_work ((ExecutionUnit.new "w").on_execute (fun st => st))).2
      (ExecutionUnit.new "w", fun st => st, none, none) rfl).1
  · exact ((C5_execute_requires_work (ExecutionUnit.new "w")).1 rfl).2 []

end HFlow

namespace HFlow

/-! ## Run-level lemmas -/

/-- A display iteration that observes a non-`Completed` status never sets
the break flag. -/
theorem displayStep_done_false (c : Config) (hd : c.displayDone = false)
    (hs : c.status ≠ ExecutionStatus.Completed) : (displayStep c).displayDone = false := by
  rcases h : c.status with _ | _ | _
  · simp [displayStep, hd, h]
  · exact absurd h hs
  · simp [displayStep, hd, h]

/-- Under the invariant, the status cell only ever holds the initial
status, the work closure's result, or the worker's dispatch result. -/
theorem wInv_status_ne_completed (a : Hook) (f s : Option Hook) (c : Config)
    (h : WInv a f s c)
    (h1 : a ExecutionStatus.InProgress ≠ ExecutionStatus.Completed)
    (h2 : (workerRun a f s ExecutionStatus.InProgress).1 ≠ ExecutionStatus.Completed) :
    c.status ≠ ExecutionStatus.Completed := by
  obtain ⟨h0, hh1, hh2, hle⟩ := h
  have hcases : c.workerPC = 0 ∨ c.workerPC = 1 ∨ c.workerPC = 2 := by omega
  rcases hcases with hpc | hpc | hpc
  · rw [(h0 hpc).1]
    intro hcontra
    exact ExecutionStatus.noConfusion hcontra
  · rw [(hh1 hpc).1]
    exact h1
  · rw [(hh2 hpc).1]
    exact h2

/-- If neither the work closure's result nor the worker's final dispatch
result is `Completed`, the display loop never breaks: no schedule makes
`display_progress` return. -/
theorem runSched_displayDone_false (a : Hook) (f s : Option Hook)
    (h1 : a ExecutionStatus.InProgress ≠ ExecutionStatus.Completed)
    (h2 : (workerRun a f s ExecutionStatus.InProgress).1 ≠ ExecutionStatus.Completed)
    (sched : List Bool) : (runSched a f s sched).displayDone = false := by
  have hmain : WInv a f s (runSched a f s sched)
      ∧ (runSched a f s sched).displayDone = false := by
    refine @foldl_step_inv Config Bool (sysStep a f s)
      (fun c => WInv a f s c ∧ c.displayDone = false)
      (fun c who hc => ?_) sched initConfig ⟨wInv_init a f s, rfl⟩
    obtain ⟨hw, hd⟩ := hc
    refine ⟨wInv_sysStep a f s c who hw, ?_⟩
    cases who
    · simpa [sysStep] using
        displayStep_done_false c hd (wInv_status_ne_completed a f s c hw h1 h2)
    · simpa [sysStep] using ((workerStep_frame a f s c).1.trans hd)
  exact hmain.2

/-- When the display loop has not broken, `execute` has not completed:
the foreground thread is still inside `display_progress`. -/
theorem executeRun_of_running (u : ExecutionUnit) (action : Hook) (sched : List Bool)
    (ha : u.execute = some action)
    (hd : (runSched action u.on_failure u.on_sucess sched).displayDone = false) :
    u.executeRun sched = (Outcome.running, runSched action u.on_failure u.on_sucess sched) := by
  simp only [ExecutionUnit.executeRun, ha]
  simp [hd]

/-- If `execute` completed (outcome not `running`), then the display loop
broke, the worker was joined, and the final re-check of the status decides
between `exit(1)` and a normal return. -/
theorem executeRun_guard (u : ExecutionUnit) (action : Hook) (sched : List Bool)
    (ha : u.execute = some action) (h : (u.executeRun sched).1 ≠ Outcome.running) :
    (runSched action u.on_failure u.on_sucess sched).displayDone = true
    ∧ (runSched action u.on_failure u.on_sucess sched).workerPC = 2
    ∧ u.executeRun sched
        = (if (runSched action u.on_failure u.on_sucess sched).status = ExecutionStatus.Failed
            then Outcome.exited 1 else Outcome.returned,
           runSched action u.on_failure u.on_sucess sched) := by
  by_cases hg : (runSched action u.on_failure u.on_sucess sched).displayDone = true
      ∧ (runSched action u.on_failure u.on_sucess sched).workerPC = 2
  · refine ⟨hg.1, hg.2, ?_⟩
    simp only [ExecutionUnit.executeRun, ha, if_pos hg]
    split <;> rfl
  · exfalso
    apply h
    simp only [ExecutionUnit.executeRun, ha, if_neg hg]

end HFlow

namespace HFlow

/-- A unit whose work closure sets the shared status to `Failed`, with no
`on_failure` (and no `on_success`) hook attached. -/
def failNoHookUnit : ExecutionUnit :=
  (ExecutionUnit.new "deploy").on_execute (fun _ => ExecutionStatus.Failed)

/-- A unit whose work closure sets the status to `Failed` and whose
attached `on_failure` hook rewrites the status to `Completed`. -/
def failRescuedUnit : ExecutionUnit :=
  ((ExecutionUnit.new "migrate").on_execute (fun _ => ExecutionStatus.Failed)).on_failure_set
    (fun _ => ExecutionStatus.Completed)

/-- C1: for a unit whose work sets the status to `Failed` with no
`on_failure` hook, NO schedule ever completes `execute`: the display loop
never observes `Completed`, never breaks, and `std::process::exit(1)` is
never reached — the process hangs reprinting the failure glyph (here: a
schedule with two display polls after the work step prints it twice)
instead of terminating with a non-zero status after printing it once. -/
theorem C1_failed_no_hook_never_terminates :
    (∀ sched : List Bool, (failNoHookUnit.executeRun sched).1 = Outcome.running)
    ∧ (failNoHookUnit.executeRun [true, false, false]).2.output
        = [Render.failLine, Render.failLine] := by
  constructor
  · intro sched
    have hd := runSched_displayDone_false (fun _ => ExecutionStatus.Failed)
      failNoHookUnit.on_failure failNoHookUnit.on_sucess (by decide) (by decide) sched
    rw [executeRun_of_running failNoHookUnit (fun _ => ExecutionStatus.Failed) sched rfl hd]
  · rfl

/-- A display-loop state that observes `Failed` while the worker is still
between its work closure and its hook dispatch. -/
def cFailed : Config :=
  { status := ExecutionStatus.Failed
    workerPC := 1
    spin := 0
    displayDone := false
    output := []
    hookEvents := [] }

/-- C2 counterexample: it is NOT the case that a display iteration
observing `Failed` terminates the loop — at the concrete state `cFailed`
the break flag stays `false` (the `Failed` arm of `display_progress` has
no `break`). -/
theorem C2_counterexample :
    ¬ ∀ c : Config, c.displayDone = false → c.status = ExecutionStatus.Failed →
        (displayStep c).displayDone = true :=
  fun h => absurd (h cFailed rfl rfl) (by decide)

/-- C2 amended: a display iteration observing `Failed` erases the in-place
line and prints the failure line, but does NOT terminate the loop — the
spinner position is untouched and the break flag stays `false`; the loop
terminates only upon observing `Completed`. -/
theorem C2_failed_renders_but_loop_continues (c : Config)
    (hd : c.displayDone = false) (hs : c.status = ExecutionStatus.Failed) :
    (displayStep c).output = c.output ++ [Render.failLine]
    ∧ (displayStep c).displayDone = false
    ∧ (displayStep c).spin = c.spin
    ∧ ∀ c2 : Config, (displayStep c2).displayDone = true →
        c2.displayDone = true ∨ c2.status = ExecutionStatus.Completed := by
  refine ⟨by simp [displayStep, hd, hs], by simp [displayStep, hd, hs],
    by simp [displayStep, hd, hs], ?_⟩
  intro c2 h2
  by_cases hd2 : c2.displayDone = true
  · exact Or.inl hd2
  · right
    rw [Bool.not_eq_true] at hd2
    rcases hst : c2.status with _ | _ | _
    · simp [displayStep, hd2, hst] at h2
    · rfl
    · simp [displayStep, hd2, hst] at h2

/-- Witness for C2 (amended): at `cFailed` the failure line is printed and
the loop does not terminate. -/
theorem C2_failed_renders_witness :
    (displayStep cFailed).output = cFailed.output ++ [Render.failLine]
    ∧ (displayStep cFailed).displayDone = false :=
  ⟨(C2_failed_renders_but_loop_continues cFailed rfl rfl).1,
   (C2_failed_renders_but_loop_continues cFailed rfl rfl).2.1⟩

/-- C3 counterexample: for the unit whose work fails and whose `on_failure`
hook rescues the status to `Completed`, the schedule
work / poll / poll / hook / poll completes normally but prints the failure
glyph TWICE — the display loop does not exit on seeing `Failed`, so
"printed exactly once" is false. -/
theorem C3_counterexample :
    (failRescuedUnit.executeRun [true, false, false, true, false]).1 = Outcome.returned
    ∧ ((failRescuedUnit.executeRun [true, false, false, true, false]).2.output).count
        Render.failLine = 2 := by
  exact ⟨rfl, rfl⟩

/-- C3 amended: for the rescued-failure unit, every schedule on which
`execute` completes ends with a normal return (process exit code 0): the
failure hook ran exactly once and left the final status `Completed`, so
the final re-check after joining the worker does not call `exit(1)`.  The
failure glyph, however, is printed once per display poll that observes
`Failed` — zero, one or more times depending on the interleaving — not
exactly once. -/
theorem C3_rescued_failure_returns_normally (sched : List Bool)
    (h : (failRescuedUnit.executeRun sched).1 ≠ Outcome.running) :
    (failRescuedUnit.executeRun sched).1 = Outcome.returned
    ∧ (failRescuedUnit.executeRun sched).2.hookEvents = [HookKind.failure]
    ∧ (failRescuedUnit.executeRun sched).2.status = ExecutionStatus.Completed := by
  obtain ⟨hd, hpc, heq⟩ :=
    executeRun_guard failRescuedUnit (fun _ => ExecutionStatus.Failed) sched rfl h
  have hw := wInv_runSched (fun _ => ExecutionStatus.Failed)
    failRescuedUnit.on_failure failRescuedUnit.on_sucess sched
  obtain ⟨hst, hev⟩ := hw.2.2.1 hpc
  have hstC : (runSched (fun _ => ExecutionStatus.Failed)
      failRescuedUnit.on_failure failRescuedUnit.on_sucess sched).status
      = ExecutionStatus.Completed := by rw [hst]; rfl
  rw [heq]
  refine ⟨?_, ?_, ?_⟩
  · simp [hstC]
  · rw [hev]; rfl
  · exact hstC

/-- Witness for C3 (amended): the counterexample schedule completes, so
the theorem applies to it. -/
theorem C3_rescued_failure_witness :
    (failRescuedUnit.executeRun [true, false, false, true, false]).1 = Outcome.returned
    ∧ (failRescuedUnit.executeRun [true, false, false, true, false]).2.hookEvents
        = [HookKind.failure]
    ∧ (failRescuedUnit.executeRun [true, false, false, true, false]).2.status
        = ExecutionStatus.Completed :=
  C3_rescued_failure_returns_normally [true, false, false, true, false] (by decide)

/-- C6: whenever `execute` completes (returns to the owning group or calls
`exit`), the display loop has broken AND the worker — work closure plus
whichever hook its single snapshot selected — has fully finished: the
recorded hook invocations equal exactly the worker's dispatch on the
status produced from the initial `InProgress`. -/
theorem C6_hook_completes_before_return (u : ExecutionUnit) (action : Hook)
    (sched : List Bool) (ha : u.execute = some action)
    (h : (u.executeRun sched).1 ≠ Outcome.running) :
    (u.executeRun sched).2.displayDone = true
    ∧ (u.executeRun sched).2.workerPC = 2
    ∧ (u.executeRun sched).2.hookEvents
        = (workerRun action u.on_failure u.on_sucess ExecutionStatus.InProgress).2 := by
  obtain ⟨hd, hpc, heq⟩ := executeRun_guard u action sched ha h
  rw [heq]
  have hw := wInv_runSched action u.on_failure u.on_sucess sched
  have hev := (hw.2.2.1 hpc).2
  constructor
  · split <;> exact hd
  constructor
  · split <;> exact hpc
  · split <;> exact hev

/-- A unit whose work completes and whose `on_success` hook is attached. -/
def successHookUnit : ExecutionUnit :=
  ((ExecutionUnit.new "build").on_execute (fun _ => ExecutionStatus.Completed)).on_success
    (fun st => st)

/-- Witness for C6: a completing schedule for `successHookUnit`. -/
theorem C6_hook_completes_witness :
    (successHookUnit.executeRun [true, true, false]).2.displayDone = true
    ∧ (successHookUnit.executeRun [true, true, false]).2.workerPC = 2
    ∧ (successHookUnit.executeRun [true, true, false]).2.hookEvents
        = (workerRun (fun _ => ExecutionStatus.Completed)
            successHookUnit.on_failure successHookUnit.on_sucess ExecutionStatus.InProgress).2 :=
  C6_hook_completes_before_return successHookUnit (fun _ => ExecutionStatus.Completed)
    [true, true, false] rfl (by decide)

end HFlow

namespace HFlow

/-! ## The spinner sequence (C8) -/

/-- The spinner characters among the rendered lines, in print order. -/
def spinnerLinesOf (l : List Render) : List String :=
  l.filterMap (fun r =>
    match r with
    | Render.spinnerLine frame => some frame
    | Render.successLine => none
    | Render.failLine => none)

theorem spinnerLinesOf_append (l1 l2 : List Render) :
    spinnerLinesOf (l1 ++ l2) = spinnerLinesOf l1 ++ spinnerLinesOf l2 :=
  List.filterMap_append l1 l2 _

theorem spinnerLinesOf_spinner (frame : String) :
    spinnerLinesOf [Render.spinnerLine frame] = [frame] := rfl

theorem spinnerLinesOf_success : spinnerLinesOf [Render.successLine] = [] := rfl

theorem spinnerLinesOf_fail : spinnerLinesOf [Render.failLine] = [] := rfl

/-- Run invariant: the spinner lines printed so far are exactly the frames
`0, 1, ..., spin-1` of the cycled 4-frame sequence, because only the
`InProgress` arm prints a spinner line and each such print advances the
cycle iterator once. -/
theorem spinInv_runSched (a : Hook) (f s : Option Hook) (sched : List Bool) :
    spinnerLinesOf (runSched a f s sched).output
      = (List.range (runSched a f s sched).spin).map spinnerFrame := by
  refine @foldl_step_inv Config Bool (sysStep a f s)
    (fun c => spinnerLinesOf c.output = (List.range c.spin).map spinnerFrame)
    (fun c who hc => ?_) sched initConfig (by simp [initConfig, spinnerLinesOf])
  cases who
  · show spinnerLinesOf (displayStep c).output
      = (List.range (displayStep c).spin).map spinnerFrame
    by_cases hd : c.displayDone = true
    · simpa [displayStep, hd] using hc
    · rw [Bool.not_eq_true] at hd
      rcases hst : c.status with _ | _ | _ <;>
        simp [displayStep, hd, hst, spinnerLinesOf_append, spinnerLinesOf_spinner,
          spinnerLinesOf_success, spinnerLinesOf_fail, hc, List.range_succ]
  · obtain ⟨-, hout, hspin⟩ := workerStep_frame a f s c
    show spinnerLinesOf (workerStep a f s c).output
      = (List.range (workerStep a f s c).spin).map spinnerFrame
    rw [hout, hspin]
    exact hc

/-- C8: in any run, while the status reads `InProgress` the successive
display iterations print spinner lines whose characters cycle through the
fixed 4-frame sequence `—`, `\`, `|`, `/` in order: the k-th spinner line
(0-based, over the whole run) carries frame `k mod 4`. -/
theorem C8_spinner_cycles (a : Hook) (f s : Option Hook) (sched : List Bool) (k : Nat)
    (hk : k < (spinnerLinesOf (runSched a f s sched).output).length) :
    (spinnerLinesOf (runSched a f s sched).output).getD k ""
      = SPINNER_FRAMES.getD (k % 4) "" := by
  have hinv := spinInv_runSched a f s sched
  rw [hinv] at hk ⊢
  rw [List.getD_eq_getElem _ _ hk]
  have hk2 : k < (List.range (runSched a f s sched).spin).length := by
    simpa using hk
  rw [List.getElem_map]
  simp [spinnerFrame]

/-- Witness for C8: five display polls on an `InProgress` status print
five spinner lines; the 4th (0-based) wraps around to frame 0. -/
theorem C8_spinner_cycles_witness :
    4 < (spinnerLinesOf (runSched (fun st => st) none none
          [false, false, false, false, false]).output).length
    ∧ (spinnerLinesOf (runSched (fun st => st) none none
          [false, false, false, false, false]).output).getD 4 ""
        = SPINNER_FRAMES.getD (4 % 4) "" :=
  ⟨by decide, C8_spinner_cycles (fun st => st) none none
      [false, false, false, false, false] 4 (by decide)⟩

/-! ## Group orchestration (C7) -/

/-- C7: `start` runs one batch per group (same count, insertion order);
every unit executed as part of the 0-based i-th group has been configured,
before its `execute()` is called, with group index `i + 1` and the
total-groups label equal to the manager's group count. -/
theorem C7_group_labels (m : ProgressManager) (i : Nat) (hi : i < m.start.length)
    (u : ExecutionUnit) (hu : u ∈ m.start.getD i []) :
    m.start.length = m.groups.length
    ∧ u.current_group_idx = (i : Int) + 1
    ∧ u.total_groups = (m.groups.length : Int) := by
  have hlen : m.start.length = m.groups.length := by
    simp [ProgressManager.start]
  refine ⟨hlen, ?_⟩
  rw [List.getD_eq_getElem _ _ hi] at hu
  simp only [ProgressManager.start, List.getElem_map, List.getElem_enum,
    TaskGroup.run, List.mem_map] at hu
  obtain ⟨v, hv, rfl⟩ := hu
  exact ⟨rfl, rfl⟩

/-- A concrete manager with two one-unit groups. -/
def demoManager : ProgressManager :=
  (ProgressManager.new.add_group
      (TaskGroup.new.add_unit (ExecutionUnit.new "a"))).add_group
    (TaskGroup.new.add_unit (ExecutionUnit.new "b"))

/-- Witness for C7: the unit of the second of two groups is executed with
label `[2/2]`. -/
theorem C7_group_labels_witness :
    demoManager.start.length = demoManager.groups.length
    ∧ (((ExecutionUnit.new "b").set_group_index ((1 : Nat) + 1)).set_total_groups 2).current_group_idx
        = ((1 : Nat) : Int) + 1
    ∧ (((ExecutionUnit.new "b").set_group_index ((1 : Nat) + 1)).set_total_groups 2).total_groups
        = (demoManager.groups.length : Int) :=
  C7_group_labels demoManager 1 (by decide)
    (((ExecutionUnit.new "b").set_group_index ((1 : Nat) + 1)).set_total_groups 2)
    (by rw [show demoManager.start.getD 1 []
          = [((ExecutionUnit.new "b").set_group_index ((1 : Nat) + 1)).set_total_groups 2] from rfl]
        exact List.mem_singleton.2 rfl)

end HFlow
